import Mathlib

/-!
Verification of the `listen` voice-recording CLI (src/listen.py, src/config.py).

The development shallowly embeds the parts of the program the claims are
about:

* the recording control loop of `record` (listen.py lines 148-199): the four
  stop conditions (signal flag, VAD silence timeout, hard timeout, keyboard),
  the VAD tracking variables `silence_start` / `has_speech`, and the timeout
  selection of line 142;
* the buffer finalization of `record` (lines 213-222) and the empty-capture
  guard of `main` (lines 717-720);
* the progress bridge `P.write` inside `transcribe` (lines 244-251) and the
  error path of `transcribe` (lines 234-270);
* `deep_merge` and `merge_config` from config.py (lines 103-138).

Machine floats carrying audio levels and times are embedded as rationals;
Python dicts are embedded as insertion-ordered association lists.
-/

/-- Session configuration, from the module globals of listen.py
(`signal_mode`, `vad_enabled`, `stdin_is_tty`, `vad_threshold`,
`vad_silence_duration`) as they stand when `record` runs. -/
structure Config where
  signal_mode : Bool
  vad_enabled : Bool
  stdin_is_tty : Bool
  vad_threshold : ℚ
  vad_silence_duration : ℚ
deriving DecidableEq

/-- VAD tracking state, from the local variables `silence_start` and
`has_speech` of `record` (lines 145-146).  `silence_start = none`,
`has_speech = false` is the spec's NoSpeechYet; `has_speech = true` with
`silence_start = none` is Speaking; `silence_start = some t0` is
SilenceTimer(t0). -/
structure VadSt where
  silence_start : Option ℚ
  has_speech : Bool
deriving DecidableEq

/-- Initial VAD state at session start (lines 145-146). -/
def vadInit : VadSt := ⟨none, false⟩

/-- Environment observed by one iteration of the control loop: the signal
flag `signal_stop[0]`, the shared level cell `lvl[0]`, whether the keyboard
queue holds a stop token, and the current wall-clock time `time.time()`. -/
structure TickInput where
  sigStop : Bool
  level : ℚ
  kbd : Bool
  now : ℚ
deriving DecidableEq

/-- Stop reasons: which of the four `break` branches of the control loop
terminated recording. -/
inductive StopReason where
  | Signal
  | SilenceTimeout
  | HardTimeout
  | Keyboard
deriving DecidableEq

/-- Hard-timeout selection, from line 142 of listen.py:
`timeout = None if (signal_mode or vad_enabled) else (10 if not stdin_is_tty else None)`. -/
def timeoutOf (cfg : Config) : Option ℚ :=
  if cfg.signal_mode || cfg.vad_enabled then none
  else if !cfg.stdin_is_tty then some 10 else none

/-- One evaluation of the VAD block of the control loop (lines 160-182).
Returns the updated tracking state and whether the silence-timeout `break`
fires this tick. -/
def vadStep (cfg : Config) (st : VadSt) (level now : ℚ) : VadSt × Bool :=
  if cfg.vad_enabled then
    if level < cfg.vad_threshold then
      if st.has_speech then
        match st.silence_start with
        | none => ({ silence_start := some now, has_speech := true }, false)
        | some s0 => (st, decide (cfg.vad_silence_duration ≤ now - s0))
      else (st, false)
    else ({ silence_start := none, has_speech := true }, false)
  else (st, false)

/-- One iteration of the control loop of `record` (lines 151-199), checking
the stop sources in source order: signal flag (line 155), VAD silence
(lines 160-182), hard timeout (line 185), keyboard queue (lines 190-197).
Returns the updated VAD state and the stop reason, if any fired. -/
def stepStop (cfg : Config) (t0 : ℚ) (st : VadSt) (inp : TickInput) :
    VadSt × Option StopReason :=
  if cfg.signal_mode && inp.sigStop then (st, some StopReason.Signal)
  else
    let v := vadStep cfg st inp.level inp.now
    if v.2 then (v.1, some StopReason.SilenceTimeout)
    else
      match timeoutOf cfg with
      | some tmo =>
        if tmo ≤ inp.now - t0 then (v.1, some StopReason.HardTimeout)
        else if !cfg.signal_mode && inp.kbd then (v.1, some StopReason.Keyboard)
        else (v.1, none)
      | none =>
        if !cfg.signal_mode && inp.kbd then (v.1, some StopReason.Keyboard)
        else (v.1, none)

/-- State evolution of one tick, ignoring whether a stop fired. -/
def stepSt (cfg : Config) (t0 : ℚ) (st : VadSt) (inp : TickInput) : VadSt :=
  (stepStop cfg t0 st inp).1

/-- VAD state after processing a list of ticks. -/
def evolve (cfg : Config) (t0 : ℚ) (st : VadSt) (inps : List TickInput) : VadSt :=
  inps.foldl (stepSt cfg t0) st

/-- The whole recording loop over a finite schedule of tick environments:
returns the index, tick environment and reason of the first tick whose stop
evaluation fires, or `none` if the schedule is exhausted with the loop still
running. -/
def runLoop (cfg : Config) (t0 : ℚ) : VadSt → List TickInput →
    Option (ℕ × TickInput × StopReason)
  | _, [] => none
  | st, inp :: rest =>
    match (stepStop cfg t0 st inp).2 with
    | some r => some (0, inp, r)
    | none =>
      (runLoop cfg t0 (stepStop cfg t0 st inp).1 rest).map (fun x => (x.1 + 1, x.2))

/-- Condition 1 of the evaluator: the signal flag is set and signal mode is
on (line 155). -/
def sigCond (cfg : Config) (inp : TickInput) : Bool :=
  cfg.signal_mode && inp.sigStop

/-- Condition 2 of the evaluator: the VAD silence timeout is reached
(lines 161-182): VAD on, current level silent, speech already seen, and a
running silence timer whose elapsed time reaches the configured duration. -/
def vadCond (cfg : Config) (st : VadSt) (inp : TickInput) : Bool :=
  cfg.vad_enabled && decide (inp.level < cfg.vad_threshold) && st.has_speech &&
    (match st.silence_start with
     | some s0 => decide (cfg.vad_silence_duration ≤ inp.now - s0)
     | none => false)

/-- Condition 3 of the evaluator: a hard timeout is configured and has
elapsed (line 185). -/
def tmoCond (cfg : Config) (t0 : ℚ) (inp : TickInput) : Bool :=
  match timeoutOf cfg with
  | some tmo => decide (tmo ≤ inp.now - t0)
  | none => false

/-- Condition 4 of the evaluator: a keyboard stop token is available and the
keyboard path is enabled (line 190). -/
def kbdCond (cfg : Config) (inp : TickInput) : Bool :=
  !cfg.signal_mode && inp.kbd

/-- The first true condition, in the fixed priority order of the loop body:
signal, VAD silence, hard timeout, keyboard. -/
def firstStop (cfg : Config) (t0 : ℚ) (st : VadSt) (inp : TickInput) :
    Option StopReason :=
  if sigCond cfg inp then some StopReason.Signal
  else if vadCond cfg st inp then some StopReason.SilenceTimeout
  else if tmoCond cfg t0 inp then some StopReason.HardTimeout
  else if kbdCond cfg inp then some StopReason.Keyboard
  else none

theorem evolve_nil (cfg : Config) (t0 : ℚ) (st : VadSt) :
    evolve cfg t0 st [] = st := rfl

theorem evolve_cons (cfg : Config) (t0 : ℚ) (st : VadSt) (inp : TickInput)
    (rest : List TickInput) :
    evolve cfg t0 st (inp :: rest) = evolve cfg t0 (stepSt cfg t0 st inp) rest := rfl

theorem evolve_concat (cfg : Config) (t0 : ℚ) (st : VadSt)
    (inps : List TickInput) (inp : TickInput) :
    evolve cfg t0 st (inps ++ [inp]) = stepSt cfg t0 (evolve cfg t0 st inps) inp := by
  simp [evolve, List.foldl_append]

/-- The stop evaluation of a tick is exactly the first condition that is
true, in the priority order signal, VAD silence, hard timeout, keyboard. -/
theorem stepStop_snd (cfg : Config) (t0 : ℚ) (st : VadSt) (inp : TickInput) :
    (stepStop cfg t0 st inp).2 = firstStop cfg t0 st inp := by
  have hv : (vadStep cfg st inp.level inp.now).2 = vadCond cfg st inp := by
    unfold vadStep vadCond
    cases hve : cfg.vad_enabled with
    | false => simp
    | true =>
      by_cases hl : inp.level < cfg.vad_threshold
      · cases hhs : st.has_speech with
        | false => simp [hl, hhs]
        | true =>
          cases hss : st.silence_start with
          | none => simp [hl, hhs, hss]
          | some s0 => simp [hl, hhs, hss]
      · simp [hl]
  unfold stepStop firstStop sigCond
  by_cases hs : cfg.signal_mode && inp.sigStop
  · simp [hs]
  · rw [Bool.not_eq_true] at hs
    simp only [hs, Bool.false_eq_true, if_false]
    by_cases hvc : vadCond cfg st inp
    · simp [hv, hvc]
    · rw [Bool.not_eq_true] at hvc
      simp only [hv, hvc, Bool.false_eq_true, if_false]
      cases ht : timeoutOf cfg with
      | none =>
        simp only [tmoCond, ht, kbdCond, hs]
        by_cases hk : cfg.signal_mode = false ∧ inp.kbd = true <;> simp [hk]
      | some tmo =>
        by_cases he : tmo ≤ inp.now - t0
        · simp [tmoCond, ht, he]
        · simp only [tmoCond, ht, he, kbdCond, hs, decide_eq_true_eq, if_false,
            decide_False, Bool.false_eq_true]
          by_cases hk : cfg.signal_mode = false ∧ inp.kbd = true <;> simp [hk, he]

/-- The state update of a tick: unchanged when the signal branch fires,
otherwise the VAD update. -/
theorem stepStop_fst (cfg : Config) (t0 : ℚ) (st : VadSt) (inp : TickInput) :
    (stepStop cfg t0 st inp).1 =
      if sigCond cfg inp then st else (vadStep cfg st inp.level inp.now).1 := by
  unfold stepStop sigCond
  by_cases hs : cfg.signal_mode && inp.sigStop
  · simp [hs]
  · rw [Bool.not_eq_true] at hs
    simp only [hs, Bool.false_eq_true, if_false]
    by_cases hvf : (vadStep cfg st inp.level inp.now).2
    · simp [hvf]
    · rw [Bool.not_eq_true] at hvf
      simp only [hvf, Bool.false_eq_true, if_false]
      cases ht : timeoutOf cfg with
      | none =>
        by_cases hk : !cfg.signal_mode && inp.kbd <;> simp [hk]
      | some tmo =>
        by_cases he : tmo ≤ inp.now - t0
        · simp [he]
        · by_cases hk : !cfg.signal_mode && inp.kbd <;> simp [he, hk]

theorem runLoop_nil (cfg : Config) (t0 : ℚ) (st : VadSt) :
    runLoop cfg t0 st [] = none := rfl

theorem runLoop_cons (cfg : Config) (t0 : ℚ) (st : VadSt) (inp : TickInput)
    (rest : List TickInput) :
    runLoop cfg t0 st (inp :: rest) =
      match (stepStop cfg t0 st inp).2 with
      | some r => some (0, inp, r)
      | none =>
        (runLoop cfg t0 (stepStop cfg t0 st inp).1 rest).map
          (fun x => (x.1 + 1, x.2)) := rfl

/-- If the loop exhausts a schedule without stopping, then no stop condition
fired at any position of the schedule. -/
theorem runLoop_none_decomp (cfg : Config) (t0 : ℚ) :
    ∀ (inps : List TickInput) (st : VadSt), runLoop cfg t0 st inps = none →
    ∀ pre j post, inps = pre ++ j :: post →
    (stepStop cfg t0 (evolve cfg t0 st pre) j).2 = none := by
  intro inps
  induction inps with
  | nil =>
    intro st h pre j post heq
    exact absurd heq (by simp)
  | cons inp rest ih =>
    intro st h pre j post heq
    cases hstep : (stepStop cfg t0 st inp).2 with
    | some r =>
      rw [runLoop_cons, hstep] at h
      simp at h
    | none =>
      rw [runLoop_cons, hstep] at h
      have h3 : runLoop cfg t0 (stepStop cfg t0 st inp).1 rest = none :=
        Option.map_eq_none'.mp h
      cases pre with
      | nil =>
        simp only [List.nil_append, List.cons.injEq] at heq
        obtain ⟨h1, _⟩ := heq
        subst h1
        simpa [evolve_nil] using hstep
      | cons p ps =>
        simp only [List.cons_append, List.cons.injEq] at heq
        obtain ⟨h1, h2⟩ := heq
        subst h1
        rw [evolve_cons]
        exact ih _ h3 ps j post h2

/-- If the loop stops on a schedule, the stop decomposes the schedule: a
prefix on which no condition fired, then the firing tick. -/
theorem runLoop_some_decomp (cfg : Config) (t0 : ℚ) :
    ∀ (inps : List TickInput) (st : VadSt) (n : ℕ) (i : TickInput) (r : StopReason),
    runLoop cfg t0 st inps = some (n, i, r) →
    ∃ pre post, inps = pre ++ i :: post ∧ pre.length = n ∧
      runLoop cfg t0 st pre = none ∧
      (stepStop cfg t0 (evolve cfg t0 st pre) i).2 = some r := by
  intro inps
  induction inps with
  | nil =>
    intro st n i r h
    simp [runLoop_nil] at h
  | cons inp rest ih =>
    intro st n i r h
    cases hstep : (stepStop cfg t0 st inp).2 with
    | some r0 =>
      rw [runLoop_cons, hstep] at h
      simp only [Option.some.injEq, Prod.mk.injEq] at h
      obtain ⟨hn, hi, hr⟩ := h
      subst hn; subst hi; subst hr
      exact ⟨[], rest, rfl, rfl, runLoop_nil cfg t0 st, by simpa [evolve_nil] using hstep⟩
    | none =>
      rw [runLoop_cons, hstep] at h
      obtain ⟨y, hy, hmap⟩ := Option.map_eq_some'.mp h
      obtain ⟨n1, i1, r1⟩ := y
      simp only [Prod.mk.injEq] at hmap
      obtain ⟨hn, hi, hr⟩ := hmap
      subst hi; subst hr
      obtain ⟨pre1, post1, hdec, hlen, hnone, hfire⟩ := ih _ n1 i1 r1 hy
      refine ⟨inp :: pre1, post1, by simp [hdec], by simp [hlen, hn], ?_, ?_⟩
      · rw [runLoop_cons, hstep, hnone]
        rfl
      · rw [evolve_cons]
        exact hfire

/-- A fired stop reason identifies which condition was true. -/
theorem firstStop_cases (cfg : Config) (t0 : ℚ) (st : VadSt) (inp : TickInput)
    (r : StopReason) :
    firstStop cfg t0 st inp = some r →
      (r = StopReason.Signal ∧ sigCond cfg inp = true) ∨
      (r = StopReason.SilenceTimeout ∧ vadCond cfg st inp = true) ∨
      (r = StopReason.HardTimeout ∧ tmoCond cfg t0 inp = true) ∨
      (r = StopReason.Keyboard ∧ kbdCond cfg inp = true) := by
  intro h
  unfold firstStop at h
  split_ifs at h with h1 h2 h3 h4 <;> simp_all

/-- A tick whose level is below threshold leaves the initial (no speech yet)
state unchanged. -/
theorem stepSt_silent_init (cfg : Config) (t0 : ℚ) (inp : TickInput)
    (h : inp.level < cfg.vad_threshold) :
    stepSt cfg t0 vadInit inp = vadInit := by
  rw [stepSt, stepStop_fst]
  by_cases hs : sigCond cfg inp
  · simp [hs]
  · simp only [hs, Bool.false_eq_true, if_false]
    unfold vadStep
    cases hve : cfg.vad_enabled
    · simp
    · simp [h, vadInit]

/-- A schedule that stays below threshold keeps the VAD state at its initial
value. -/
theorem evolve_silent_init (cfg : Config) (t0 : ℚ) :
    ∀ inps : List TickInput, (∀ i ∈ inps, i.level < cfg.vad_threshold) →
    evolve cfg t0 vadInit inps = vadInit := by
  intro inps h
  induction inps with
  | nil => rfl
  | cons a l ih =>
    rw [evolve_cons, stepSt_silent_init cfg t0 a (h a (by simp))]
    exact ih (fun i hi => h i (by simp [hi]))

theorem timeoutOf_none_of_vad (cfg : Config) (h : cfg.vad_enabled = true) :
    timeoutOf cfg = none := by
  simp [timeoutOf, h]

theorem timeoutOf_eq_ten_iff (cfg : Config) :
    timeoutOf cfg = some 10 ↔
      cfg.signal_mode = false ∧ cfg.vad_enabled = false ∧ cfg.stdin_is_tty = false := by
  unfold timeoutOf
  cases hs : cfg.signal_mode <;> cases hv : cfg.vad_enabled <;>
    cases ht : cfg.stdin_is_tty <;> simp

/-- After one tick, the silence timer is either cleared, carried over, or
freshly started at the tick's own (silent) time. -/
theorem stepSt_silence_cases (cfg : Config) (t0 : ℚ) (st : VadSt) (inp : TickInput) :
    (stepSt cfg t0 st inp).silence_start = none ∨
    (stepSt cfg t0 st inp).silence_start = st.silence_start ∨
    ((stepSt cfg t0 st inp).silence_start = some inp.now ∧
      inp.level < cfg.vad_threshold) := by
  rw [stepSt, stepStop_fst]
  by_cases hs : sigCond cfg inp
  · simp [hs]
  · simp only [hs, Bool.false_eq_true, if_false]
    unfold vadStep
    by_cases hve : cfg.vad_enabled <;> by_cases hl : inp.level < cfg.vad_threshold <;>
      cases hhs : st.has_speech <;> cases hss : st.silence_start <;>
        simp [hve, hl, hhs, hss]

/-- Any running silence timer in a reachable state was started at the time of
an earlier tick whose level was below threshold. -/
theorem silence_start_origin (cfg : Config) (t0 : ℚ) :
    ∀ (pre : List TickInput) (s0 : ℚ),
    (evolve cfg t0 vadInit pre).silence_start = some s0 →
    ∃ j ∈ pre, j.now = s0 ∧ j.level < cfg.vad_threshold := by
  intro pre
  induction pre using List.reverseRecOn with
  | nil =>
    intro s0 h
    simp [evolve_nil, vadInit] at h
  | append_singleton l a ih =>
    intro s0 h
    rw [evolve_concat] at h
    rcases stepSt_silence_cases cfg t0 (evolve cfg t0 vadInit l) a with hc | hc | ⟨hc, hl⟩
    · rw [hc] at h
      exact absurd h (by simp)
    · rw [hc] at h
      obtain ⟨j, hj, hnow, hlev⟩ := ih s0 h
      exact ⟨j, by simp [hj], hnow, hlev⟩
    · rw [hc] at h
      injection h with h2
      exact ⟨a, by simp, h2, hl⟩

/-- In the keyboard/timeout mode with a quiet keyboard, a tick either fires
the hard timeout (once ten seconds have elapsed) or nothing. -/
theorem stepStop_env_timeout (cfg : Config) (t0 : ℚ) (st : VadSt) (inp : TickInput)
    (hs : cfg.signal_mode = false) (hv : cfg.vad_enabled = false)
    (ht : cfg.stdin_is_tty = false) (hk : inp.kbd = false) :
    (stepStop cfg t0 st inp).2 =
      if (10:ℚ) ≤ inp.now - t0 then some StopReason.HardTimeout else none := by
  rw [stepStop_snd]
  unfold firstStop sigCond vadCond tmoCond kbdCond timeoutOf
  by_cases he : (10:ℚ) ≤ inp.now - t0 <;> simp [hs, hv, ht, hk, he]

/-- Demonstration configuration: signal mode only. -/
def cfgSig : Config := ⟨true, false, true, 1, 2⟩

/-- Demonstration configuration: VAD mode only (threshold 1, duration 2s). -/
def cfgV : Config := ⟨false, true, true, 1, 2⟩

/-- Demonstration configuration with signal mode and VAD both enabled, as
`--signal-mode --vad 2` produces. -/
def cfgBoth : Config := ⟨true, true, true, 1, 2⟩

/-- Tick with the signal flag raised. -/
def tickSig : TickInput := ⟨true, 0, false, 0⟩

/-- Tick with speech-level audio at time 0. -/
def tickLoud : TickInput := ⟨false, 2, false, 0⟩

/-- Silent tick at time 1. -/
def tickQuiet1 : TickInput := ⟨false, 0, false, 1⟩

/-- Silent tick at time 3. -/
def tickQuiet2 : TickInput := ⟨false, 0, false, 3⟩

/-- C1: each control-loop tick evaluates the four stop sources in the fixed
priority order signal flag, VAD silence timeout, hard timeout, keyboard, and
returns exactly the first condition that is true — at most one StopReason per
tick; and when a whole session stops, the schedule splits into a prefix on
which no stop branch fired and the single tick whose branch terminated the
loop, so exactly one branch terminates the session. -/
theorem C1_stop_priority_unique :
    (∀ (cfg : Config) (t0 : ℚ) (st : VadSt) (inp : TickInput),
      (stepStop cfg t0 st inp).2 = firstStop cfg t0 st inp) ∧
    (∀ (cfg : Config) (t0 : ℚ) (st : VadSt) (inps : List TickInput)
        (n : ℕ) (i : TickInput) (r : StopReason),
      runLoop cfg t0 st inps = some (n, i, r) →
      ∃ pre post, inps = pre ++ i :: post ∧ pre.length = n ∧
        runLoop cfg t0 st pre = none ∧
        (stepStop cfg t0 (evolve cfg t0 st pre) i).2 = some r) :=
  ⟨stepStop_snd,
   fun cfg t0 st inps n i r h => runLoop_some_decomp cfg t0 inps st n i r h⟩

/-- Witness for C1 at a concrete signal-mode session of one tick. -/
theorem C1_stop_priority_unique_witness :
    runLoop cfgSig 0 vadInit [tickSig] = some (0, tickSig, StopReason.Signal) ∧
    ∃ pre post, [tickSig] = pre ++ tickSig :: post ∧ pre.length = 0 ∧
      runLoop cfgSig 0 vadInit pre = none ∧
      (stepStop cfgSig 0 (evolve cfgSig 0 vadInit pre) tickSig).2 =
        some StopReason.Signal :=
  ⟨by norm_num [runLoop, stepStop, vadStep, timeoutOf, cfgSig, tickSig, vadInit],
   C1_stop_priority_unique.2 cfgSig 0 vadInit [tickSig] 0 tickSig
     StopReason.Signal
     (by norm_num [runLoop, stepStop, vadStep, timeoutOf, cfgSig, tickSig, vadInit])⟩

/-- Number of the spec's three operating modes that are active in a
configuration: signal-mode, VAD-mode, and keyboard/timeout-mode (the default
mode, active when neither of the other two is selected). -/
def modeCount (cfg : Config) : ℕ :=
  (if cfg.signal_mode then 1 else 0) + (if cfg.vad_enabled then 1 else 0) +
    (if !cfg.signal_mode && !cfg.vad_enabled then 1 else 0)

/-- Counterexample to C2: with `--signal-mode --vad 2` both signal mode and
VAD mode are active in the same session (two modes, not exactly one), and
both the Signal branch and the SilenceTimeout branch are reachable in that
one configuration. -/
theorem C2_counterexample :
    modeCount cfgBoth = 2 ∧ decide (modeCount cfgBoth = 1) = false ∧
    runLoop cfgBoth 0 vadInit [tickSig] = some (0, tickSig, StopReason.Signal) ∧
    runLoop cfgBoth 0 vadInit [tickLoud, tickQuiet1, tickQuiet2] =
      some (2, tickQuiet2, StopReason.SilenceTimeout) := by
  refine ⟨by norm_num [modeCount, cfgBoth], by norm_num [modeCount, cfgBoth], ?_, ?_⟩
  · norm_num [runLoop, stepStop, vadStep, timeoutOf, cfgBoth, tickSig, vadInit]
  · norm_num [runLoop, stepStop, vadStep, timeoutOf, cfgBoth, tickLoud, tickQuiet1,
      tickQuiet2, vadInit]

/-- C2 (amended): the two configuration contracts the code does enforce —
a signal-mode session can never stop via the keyboard branch, and a VAD
session can never stop via the hard-timeout branch — hold for every session;
however signal mode and VAD are not mutually exclusive. -/
theorem C2_mode_isolation :
    ∀ (cfg : Config) (t0 : ℚ) (st : VadSt) (inps : List TickInput)
      (n : ℕ) (i : TickInput) (r : StopReason),
      runLoop cfg t0 st inps = some (n, i, r) →
      (cfg.signal_mode = true → r ≠ StopReason.Keyboard) ∧
      (cfg.vad_enabled = true → r ≠ StopReason.HardTimeout) := by
  intro cfg t0 st inps n i r h
  obtain ⟨pre, post, hdec, hlen, hnone, hfire⟩ :=
    runLoop_some_decomp cfg t0 inps st n i r h
  rw [stepStop_snd] at hfire
  constructor
  · intro hs hrK
    subst hrK
    rcases firstStop_cases _ _ _ _ _ hfire with ⟨hr, _⟩ | ⟨hr, _⟩ | ⟨hr, _⟩ | ⟨_, hc⟩
    · simp at hr
    · simp at hr
    · simp at hr
    · simp [kbdCond, hs] at hc
  · intro hv hrH
    subst hrH
    rcases firstStop_cases _ _ _ _ _ hfire with ⟨hr, _⟩ | ⟨hr, _⟩ | ⟨_, hc⟩ | ⟨hr, _⟩
    · simp at hr
    · simp at hr
    · simp [tmoCond, timeoutOf_none_of_vad cfg hv] at hc
    · simp at hr

/-- Witness for the amended C2 at a concrete signal-mode session. -/
theorem C2_mode_isolation_witness :
    (cfgSig.signal_mode = true → StopReason.Signal ≠ StopReason.Keyboard) ∧
    (cfgSig.vad_enabled = true → StopReason.Signal ≠ StopReason.HardTimeout) :=
  C2_mode_isolation cfgSig 0 vadInit [tickSig] 0 tickSig StopReason.Signal
    (by norm_num [runLoop, stepStop, vadStep, timeoutOf, cfgSig, tickSig, vadInit])

/-- Tick with a keyboard stop token at time 0. -/
def tickKbd : TickInput := ⟨false, 0, true, 0⟩

/-- C3: in VAD mode, a tick at or above threshold discards the silence timer
(restarting the measurement); and whenever a session stops with
SilenceTimeout, the firing tick is at least `silence_duration` seconds after
the running timer's start, which is the time of an earlier below-threshold
tick — the reason never fires earlier. -/
theorem C3_vad_silence_timing :
    (∀ (cfg : Config) (t0 : ℚ) (st : VadSt) (inp : TickInput),
      cfg.vad_enabled = true → sigCond cfg inp = false →
      cfg.vad_threshold ≤ inp.level →
      (stepStop cfg t0 st inp).1 = ⟨none, true⟩) ∧
    (∀ (cfg : Config) (t0 : ℚ) (inps : List TickInput) (n : ℕ) (i : TickInput),
      runLoop cfg t0 vadInit inps = some (n, i, StopReason.SilenceTimeout) →
      ∃ pre post s0, inps = pre ++ i :: post ∧
        (evolve cfg t0 vadInit pre).silence_start = some s0 ∧
        cfg.vad_silence_duration ≤ i.now - s0 ∧
        ∃ j ∈ pre, j.now = s0 ∧ j.level < cfg.vad_threshold) := by
  constructor
  · intro cfg t0 st inp hv hs hl
    rw [stepStop_fst]
    simp only [hs, Bool.false_eq_true, if_false]
    unfold vadStep
    simp [hv, not_lt.mpr hl]
  · intro cfg t0 inps n i h
    obtain ⟨pre, post, hdec, hlen, hnone, hfire⟩ :=
      runLoop_some_decomp cfg t0 inps vadInit n i _ h
    rw [stepStop_snd] at hfire
    rcases firstStop_cases _ _ _ _ _ hfire with ⟨hr, _⟩ | ⟨_, hc⟩ | ⟨hr, _⟩ | ⟨hr, _⟩
    · simp at hr
    · unfold vadCond at hc
      cases hss : (evolve cfg t0 vadInit pre).silence_start with
      | none => rw [hss] at hc; simp at hc
      | some s0 =>
        rw [hss] at hc
        simp only [Bool.and_eq_true, decide_eq_true_eq] at hc
        obtain ⟨⟨⟨_, _⟩, _⟩, hd⟩ := hc
        obtain ⟨j, hj, hnow, hlev⟩ := silence_start_origin cfg t0 pre s0 hss
        exact ⟨pre, post, s0, hdec, hss, hd, j, hj, hnow, hlev⟩
    · simp at hr
    · simp at hr

/-- Witness for C3: a speech tick discards a running timer, and a concrete
VAD session fires SilenceTimeout two seconds after silence set in. -/
theorem C3_vad_silence_timing_witness :
    (stepStop cfgV 0 ⟨some 5, true⟩ tickLoud).1 = ⟨none, true⟩ ∧
    ∃ pre post s0, [tickLoud, tickQuiet1, tickQuiet2] = pre ++ tickQuiet2 :: post ∧
      (evolve cfgV 0 vadInit pre).silence_start = some s0 ∧
      cfgV.vad_silence_duration ≤ tickQuiet2.now - s0 ∧
      ∃ j ∈ pre, j.now = s0 ∧ j.level < cfgV.vad_threshold :=
  ⟨C3_vad_silence_timing.1 cfgV 0 ⟨some 5, true⟩ tickLoud rfl
      (by norm_num [sigCond, cfgV, tickLoud]) (by norm_num [cfgV, tickLoud]),
   C3_vad_silence_timing.2 cfgV 0 [tickLoud, tickQuiet1, tickQuiet2] 2 tickQuiet2
      (by norm_num [runLoop, stepStop, vadStep, timeoutOf, cfgV, tickLoud,
        tickQuiet1, tickQuiet2, vadInit])⟩

/-- C4: in a VAD session whose level stays strictly below threshold on every
tick, the VAD state never leaves its initial NoSpeechYet value, no
SilenceTimeout is produced, and no hard timeout exists either: the loop can
only be terminated externally, by the signal or the keyboard. -/
theorem C4_no_speech_never_silences :
    ∀ (cfg : Config) (t0 : ℚ) (inps : List TickInput),
      cfg.vad_enabled = true →
      (∀ i ∈ inps, i.level < cfg.vad_threshold) →
      (∀ n : ℕ, evolve cfg t0 vadInit (inps.take n) = vadInit) ∧
      (∀ (n : ℕ) (i : TickInput) (r : StopReason),
        runLoop cfg t0 vadInit inps = some (n, i, r) →
        r = StopReason.Signal ∨ r = StopReason.Keyboard) := by
  intro cfg t0 inps hv hsilent
  constructor
  · intro n
    exact evolve_silent_init cfg t0 _ (fun i hi => hsilent i (List.take_subset n inps hi))
  · intro n i r h
    obtain ⟨pre, post, hdec, hlen, hnone, hfire⟩ :=
      runLoop_some_decomp cfg t0 inps vadInit n i r h
    have hpre : evolve cfg t0 vadInit pre = vadInit :=
      evolve_silent_init cfg t0 _
        (fun j hj => hsilent j (by rw [hdec]; exact List.mem_append_left _ hj))
    rw [stepStop_snd, hpre] at hfire
    rcases firstStop_cases _ _ _ _ _ hfire with ⟨hr, _⟩ | ⟨_, hc⟩ | ⟨_, hc⟩ | ⟨hr, _⟩
    · left; exact hr
    · simp [vadCond, vadInit] at hc
    · simp [tmoCond, timeoutOf_none_of_vad cfg hv] at hc
    · right; exact hr

/-- Witness for C4 at a one-tick silent VAD session stopped by the keyboard. -/
theorem C4_no_speech_never_silences_witness :
    (∀ n : ℕ, evolve cfgV 0 vadInit ([tickKbd].take n) = vadInit) ∧
    (∀ (n : ℕ) (i : TickInput) (r : StopReason),
      runLoop cfgV 0 vadInit [tickKbd] = some (n, i, r) →
      r = StopReason.Signal ∨ r = StopReason.Keyboard) :=
  C4_no_speech_never_silences cfgV 0 [tickKbd] rfl
    (by norm_num [tickKbd, cfgV])

/-- Demonstration configuration for the default keyboard/timeout mode with a
non-interactive stdin. -/
def cfgPlain : Config := ⟨false, false, false, 1, 2⟩

/-- Tick at exactly ten seconds. -/
def tickTen : TickInput := ⟨false, 0, false, 10⟩

/-- C7: the 10-second hard timeout exists exactly when no interactive
terminal is attached and neither signal mode nor VAD is engaged; in that
configuration, over any schedule with no keyboard events, a first tick
within the deadline, consecutive ticks at most half a second apart, and some
tick past ten seconds, the session stops with HardTimeout at an elapsed time
of at least 10 s (hence at least 9.9 s) and at most 10.5 s. -/
theorem C7_hard_timeout_window :
    (∀ cfg : Config, timeoutOf cfg = some 10 ↔
      cfg.signal_mode = false ∧ cfg.vad_enabled = false ∧ cfg.stdin_is_tty = false) ∧
    (∀ (cfg : Config) (t0 : ℚ) (inps : List TickInput),
      cfg.signal_mode = false → cfg.vad_enabled = false → cfg.stdin_is_tty = false →
      (∀ i ∈ inps, i.kbd = false) →
      (∀ i ∈ inps.take 1, i.now - t0 ≤ 10) →
      List.Chain' (fun a b => b.now - a.now ≤ 1/2) inps →
      (∃ j ∈ inps, 10 ≤ j.now - t0) →
      ∃ (n : ℕ) (i : TickInput),
        runLoop cfg t0 vadInit inps = some (n, i, StopReason.HardTimeout) ∧
        99/10 ≤ i.now - t0 ∧ 10 ≤ i.now - t0 ∧ i.now - t0 ≤ 21/2) := by
  refine ⟨timeoutOf_eq_ten_iff, ?_⟩
  intro cfg t0 inps hs hv ht hkbd hfirst hchain hex
  obtain ⟨j, hjmem, hjel⟩ := hex
  cases hrl : runLoop cfg t0 vadInit inps with
  | none =>
    exfalso
    obtain ⟨s, t, hst⟩ := List.append_of_mem hjmem
    have hnone := runLoop_none_decomp cfg t0 inps vadInit hrl s j t hst
    rw [stepStop_env_timeout cfg t0 _ j hs hv ht (hkbd j hjmem), if_pos hjel] at hnone
    exact absurd hnone (by simp)
  | some y =>
    obtain ⟨n, i, r⟩ := y
    obtain ⟨pre, post, hdec, hlen, hnone, hfire⟩ :=
      runLoop_some_decomp cfg t0 inps vadInit n i r hrl
    have himem : i ∈ inps := by
      rw [hdec]; exact List.mem_append_right _ (by simp)
    rw [stepStop_env_timeout cfg t0 _ i hs hv ht (hkbd i himem)] at hfire
    by_cases hel : (10:ℚ) ≤ i.now - t0
    · rw [if_pos hel] at hfire
      have hr : r = StopReason.HardTimeout := by
        injection hfire with h2
        exact h2.symm
      subst hr
      refine ⟨n, i, rfl, by linarith, hel, ?_⟩
      rcases List.eq_nil_or_concat pre with hpre | ⟨l, last, hpre⟩
      · subst hpre
        have hi1 : i ∈ inps.take 1 := by rw [hdec]; simp
        have h10 := hfirst i hi1
        linarith
      · subst hpre
        have hlastmem : last ∈ inps := by
          rw [hdec]
          exact List.mem_append_left _ (by simp [List.concat_eq_append])
        have hlaststep :=
          runLoop_none_decomp cfg t0 (List.concat l last) vadInit hnone l last []
            (by simp [List.concat_eq_append])
        rw [stepStop_env_timeout cfg t0 _ last hs hv ht (hkbd last hlastmem)] at hlaststep
        have hlast10 : ¬ (10:ℚ) ≤ last.now - t0 := by
          intro hcon
          rw [if_pos hcon] at hlaststep
          exact absurd hlaststep (by simp)
        rw [hdec, List.concat_eq_append] at hchain
        have hgap : i.now - last.now ≤ 1/2 := by
          rcases List.chain'_append.mp hchain with ⟨_, _, hrel⟩
          exact hrel last (by simp [List.getLast?_concat]) i (by simp)
        push_neg at hlast10
        linarith
    · rw [if_neg hel] at hfire
      exact absurd hfire (by simp)

/-- Witness for C7 at a one-tick schedule reaching exactly ten seconds. -/
theorem C7_hard_timeout_window_witness :
    ∃ (n : ℕ) (i : TickInput),
      runLoop cfgPlain 0 vadInit [tickTen] = some (n, i, StopReason.HardTimeout) ∧
      (99:ℚ)/10 ≤ i.now - 0 ∧ 10 ≤ i.now - 0 ∧ i.now - 0 ≤ 21/2 :=
  C7_hard_timeout_window.2 cfgPlain 0 [tickTen] rfl rfl rfl
    (by norm_num [tickTen]) (by norm_num [tickTen])
    (by simp [List.chain'_singleton])
    ⟨tickTen, by simp, by norm_num [tickTen]⟩

/-- Accumulation of the module-level buffer `rec` by the capture callback
`audio_cb` (lines 57-59): each delivered block is appended in arrival
order, starting from the empty buffer set at line 119.  Blocks are sample
lists (mono capture, CHANNELS = 1). -/
def recBuffer (blocks : List (List ℚ)) : List (List ℚ) :=
  blocks.foldl (fun r b => r ++ [b]) []

/-- Buffer finalization of `record` (lines 213-222): an empty buffer yields
`None`, a non-empty buffer the concatenation of its blocks flattened to one
sample sequence. -/
def record_finalize (recList : List (List ℚ)) : Option (List ℚ) :=
  if recList.isEmpty then none else some recList.flatten

/-- Outcome of `main` right after `record` returns (lines 717-720): exit
with status 1 and no transcription when no data (or zero-length data) came
back, otherwise proceed to the transcription engine with the samples. -/
inductive MainOutcome where
  | emptyCaptureExit
  | transcribes (samples : List ℚ)
deriving DecidableEq

/-- The empty-capture guard of `main` (lines 718-720):
`if data is None or len(data) == 0: sys.exit(1)`. -/
def main_after_record : Option (List ℚ) → MainOutcome
  | none => MainOutcome.emptyCaptureExit
  | some l =>
    if l.isEmpty then MainOutcome.emptyCaptureExit else MainOutcome.transcribes l

theorem recBuffer_foldl (blocks : List (List ℚ)) :
    ∀ acc : List (List ℚ), blocks.foldl (fun r b => r ++ [b]) acc = acc ++ blocks := by
  induction blocks with
  | nil => intro acc; simp
  | cons b rest ih =>
    intro acc
    rw [List.foldl_cons, ih]
    simp

/-- The callback appends preserve arrival order exactly. -/
theorem recBuffer_eq (blocks : List (List ℚ)) : recBuffer blocks = blocks := by
  rw [recBuffer, recBuffer_foldl]
  simp

/-- C5: when zero AudioBlocks were appended before the stop condition fired,
`record` returns no data and `main` exits with the no-audio-captured
failure, never invoking the transcription engine. -/
theorem C5_empty_capture_no_transcription :
    record_finalize (recBuffer []) = none ∧
    main_after_record (record_finalize (recBuffer [])) = MainOutcome.emptyCaptureExit :=
  ⟨rfl, rfl⟩

/-- C8: the finalized audio buffer is the concatenation of the delivered
blocks in arrival order, and its total sample length is the sum of the
individual block lengths. -/
theorem C8_buffer_concat_length :
    ∀ blocks : List (List ℚ),
      recBuffer blocks = blocks ∧
      (blocks ≠ [] → record_finalize (recBuffer blocks) = some blocks.flatten) ∧
      blocks.flatten.length = (blocks.map List.length).sum := by
  intro blocks
  refine ⟨recBuffer_eq blocks, ?_, List.length_flatten blocks⟩
  intro hne
  rw [recBuffer_eq blocks, record_finalize, if_neg]
  simp [hne]

/-- Witness for C8 at a concrete two-block capture. -/
theorem C8_buffer_concat_length_witness :
    recBuffer [[(1:ℚ)], [2, 3]] = [[(1:ℚ)], [2, 3]] ∧
    record_finalize (recBuffer [[(1:ℚ)], [2, 3]]) = some ([[(1:ℚ)], [2, 3]].flatten) ∧
    ([[(1:ℚ)], [2, 3]].flatten).length = ([[(1:ℚ)], [2, 3]].map List.length).sum :=
  ⟨(C8_buffer_concat_length [[(1:ℚ)], [2, 3]]).1,
   (C8_buffer_concat_length [[(1:ℚ)], [2, 3]]).2.1 (by simp),
   (C8_buffer_concat_length [[(1:ℚ)], [2, 3]]).2.2⟩

/-- Scan for the leftmost match of the pattern digits-then-percent, as
`re.search(r'(\d+)%', txt)` of line 248 finds it: the accumulator carries the
value of the digit run ending at the previous character, and the first `%`
immediately preceded by a digit yields that run's value (the leftmost match
of the greedy regex starts at the first maximal digit run followed by `%`). -/
def scanPct (acc : Option ℕ) : List Char → Option ℕ
  | [] => none
  | c :: cs =>
    if c.isDigit then scanPct (some ((acc.getD 0) * 10 + (c.toNat - 48))) cs
    else if c = '%' then
      match acc with
      | some n => some n
      | none => scanPct none cs
    else scanPct none cs

/-- The percentage marker of a diagnostic line, if any. -/
def searchPct (line : List Char) : Option ℕ := scanPct none line

/-- The progress value the bridge publishes for a raw 0-100 marker p
(line 250): `0.2 + p/100 * 0.8`. -/
def progressOf (p : ℕ) : ℚ := 1/5 + (p : ℚ) / 100 * (4/5)

/-- One `P.write` call of the progress bridge (lines 244-251), restricted to
its effect on the shared progress cell `pct[0]` in the recording path (a
blink state is attached): a line containing `%` with a percentage marker
sets the cell into the 0.2-1.0 sub-range, any other line leaves it
unchanged. -/
def bridgeStep (pct : ℚ) (line : List Char) : ℚ :=
  if '%' ∈ line then
    match searchPct line with
    | some p => progressOf p
    | none => pct
  else pct

theorem scanPct_percent (line : List Char) :
    ∀ (acc : Option ℕ) (n : ℕ), scanPct acc line = some n → '%' ∈ line := by
  induction line with
  | nil =>
    intro acc n h
    simp [scanPct] at h
  | cons c cs ih =>
    intro acc n h
    rw [scanPct.eq_def] at h
    simp only [] at h
    by_cases hd : c.isDigit
    · rw [if_pos hd] at h
      exact List.mem_cons_of_mem _ (ih _ _ h)
    · rw [if_neg hd] at h
      by_cases hp : c = '%'
      · subst hp
        exact List.mem_cons_self _ _
      · rw [if_neg hp] at h
        exact List.mem_cons_of_mem _ (ih _ _ h)

/-- C6: a line whose marker parses as p is published as progress
0.2 + p/100 · 0.8, so 0% maps to 0.2, 100% maps to 1.0; the mapping is
monotone, so any non-decreasing sequence of markers publishes a
non-decreasing sequence of progress values. -/
theorem C6_progress_mapping :
    (∀ (pct : ℚ) (line : List Char) (p : ℕ),
      searchPct line = some p → bridgeStep pct line = progressOf p) ∧
    progressOf 0 = 1/5 ∧ progressOf 100 = 1 ∧
    (∀ p q : ℕ, p ≤ q → progressOf p ≤ progressOf q) ∧
    (∀ ps : List ℕ, List.Pairwise (· ≤ ·) ps →
      List.Pairwise (· ≤ ·) (ps.map progressOf)) := by
  have hmono : ∀ p q : ℕ, p ≤ q → progressOf p ≤ progressOf q := by
    intro p q hpq
    unfold progressOf
    have hc : (p:ℚ) ≤ q := Nat.cast_le.mpr hpq
    linarith
  refine ⟨?_, by norm_num [progressOf], by norm_num [progressOf], hmono, ?_⟩
  · intro pct line p hp
    have hmem : '%' ∈ line := scanPct_percent line none p hp
    rw [bridgeStep, if_pos hmem, hp]
  · intro ps hps
    rw [List.pairwise_map]
    exact hps.imp (fun h => hmono _ _ h)

/-- Witness for C6 on a concrete diagnostic line. -/
theorem C6_progress_mapping_witness :
    bridgeStep 0 (String.toList " 42% done") = progressOf 42 ∧
    progressOf 3 ≤ progressOf 7 :=
  ⟨C6_progress_mapping.1 0 (String.toList " 42% done") 42 (by decide),
   C6_progress_mapping.2.2.2.1 3 7 (by norm_num)⟩

/-- Session phases of the spec's SessionStatus. -/
inductive Phase where
  | Recording
  | Processing
  | Done
  | Error
deriving DecidableEq

/-- Observable events of `transcribe` (lines 225-270) on the shared state:
updates of the progress cell `pct[0]`, and — vocabulary needed to state the
claim's requirement — the publication of a phase-tagged SessionStatus
carrying a message.  `transcribe` contains no status publication, so the
embedding of its code never produces the second constructor. -/
inductive TEvent where
  | pctSet (p : ℚ)
  | statusPublished (phase : Phase) (message : String)
deriving DecidableEq

/-- The engine call `m.transcribe` (line 258) as `transcribe` observes it:
the diagnostic lines the engine writes to the redirected stderr while it
runs, then either the final text or a raised error's description. -/
structure EngineRun where
  lines : List (List Char)
  outcome : Except String String

/-- Control flow of `transcribe` (lines 234-270) with respect to published
events and the returned value, for one engine run.  With a blink state
attached (`withUI`), `pct[0]` is set to 0.2 after model load (line 242), the
bridge `P.write` maps each marker line into the 0.2-1.0 sub-range
(lines 248-250), and on success `pct[0]` is set to 1.0 (line 265).  The
`try` block has no `except` clause and the `finally` only sleeps, so an
engine error propagates to the caller unchanged and no status of any phase
is published. -/
def transcribe_run (withUI : Bool) (engine : EngineRun) :
    List TEvent × Except String String :=
  let loadEvs := if withUI then [TEvent.pctSet (1/5)] else []
  let progEvs :=
    if withUI then
      engine.lines.filterMap
        (fun l => (searchPct l).map (fun p => TEvent.pctSet (progressOf p)))
    else []
  match engine.outcome with
  | Except.error e => (loadEvs ++ progEvs, Except.error e)
  | Except.ok text =>
    (loadEvs ++ progEvs ++ (if withUI then [TEvent.pctSet 1] else []),
      Except.ok text)

/-- Error descriptions carried by Error-phase status publications among a
list of events. -/
def publishedErrors (evs : List TEvent) : List String :=
  evs.filterMap (fun ev =>
    match ev with
    | TEvent.statusPublished Phase.Error m => some m
    | _ => none)

theorem publishedErrors_append (a b : List TEvent) :
    publishedErrors (a ++ b) = publishedErrors a ++ publishedErrors b := by
  simp [publishedErrors]

theorem publishedErrors_progress (lines : List (List Char)) :
    publishedErrors (lines.filterMap
      (fun l => (searchPct l).map (fun p => TEvent.pctSet (progressOf p)))) = [] := by
  induction lines with
  | nil => rfl
  | cons l rest ih =>
    rw [List.filterMap_cons]
    cases hs : searchPct l with
    | none => simpa using ih
    | some p =>
      simp only [Option.map_some']
      rw [publishedErrors, List.filterMap_cons]
      simpa [publishedErrors] using ih

/-- Counterexample to C9: for an engine run that raises "boom", `transcribe`
re-raises the error to the caller, but the set of Error-phase status
publications is empty — in particular the description "boom" is never
published, though the claim requires an Error-phase status carrying it. -/
theorem C9_counterexample :
    (transcribe_run true ⟨[], Except.error "boom"⟩).2 = Except.error "boom" ∧
    publishedErrors (transcribe_run true ⟨[], Except.error "boom"⟩).1 = [] ∧
    ((publishedErrors (transcribe_run true ⟨[], Except.error "boom"⟩).1).contains
      "boom") = false :=
  ⟨rfl, rfl, rfl⟩

/-- C9 (amended): if the transcription engine raises, `transcribe`
propagates the same error unchanged to the caller, and publishes no
Error-phase SessionStatus (the function publishes no status at all). -/
theorem C9_engine_error_propagates :
    ∀ (withUI : Bool) (lines : List (List Char)) (e : String),
      (transcribe_run withUI ⟨lines, Except.error e⟩).2 = Except.error e ∧
      publishedErrors (transcribe_run withUI ⟨lines, Except.error e⟩).1 = [] := by
  intro withUI lines e
  refine ⟨rfl, ?_⟩
  cases withUI with
  | false => rfl
  | true =>
    show publishedErrors ([TEvent.pctSet (1/5)] ++ lines.filterMap
      (fun l => (searchPct l).map (fun p => TEvent.pctSet (progressOf p)))) = []
    rw [publishedErrors_append, publishedErrors_progress]
    rfl

/-- Embedded JSON-like configuration value: an opaque scalar (string, number
or boolean — the merge treats all non-dict values alike) or a nested
dictionary, a Python dict embedded as its insertion-ordered key/value list. -/
inductive JVal where
  | atom (tag : ℕ)
  | dict (entries : List (String × JVal))

/-- First binding of a key in a dict's entry list (Python `result[key]` /
`key in result`; a Python dict holds each key once). -/
def lookupKey : List (String × JVal) → String → Option JVal
  | [], _ => none
  | (k, v) :: rest, key => if k = key then some v else lookupKey rest key

/-- Python dict assignment `result[key] = value`: replaces the value in
place when the key exists, appends the binding otherwise. -/
def setKey : List (String × JVal) → String → JVal → List (String × JVal)
  | [], key, v => [(key, v)]
  | (k, w) :: rest, key, v =>
    if k = key then (k, v) :: rest else (k, w) :: setKey rest key v

/-- `deep_merge(base, overlay)` of config.py (lines 103-113) on dict entry
lists: each overlay binding is written into the copy of base in turn, except
that a dict value overwriting an existing dict value is merged recursively. -/
def deep_merge : List (String × JVal) → List (String × JVal) → List (String × JVal)
  | base, [] => base
  | base, (k, JVal.dict o) :: rest =>
    (match lookupKey base k with
     | some (JVal.dict b) => deep_merge (setKey base k (JVal.dict (deep_merge b o))) rest
     | _ => deep_merge (setKey base k (JVal.dict o)) rest)
  | base, (k, JVal.atom a) :: rest => deep_merge (setKey base k (JVal.atom a)) rest
termination_by _ overlay => sizeOf overlay
decreasing_by all_goals (simp_wf <;> omega)

/-- `merge_config(defaults, file_config, cli_args)` of config.py
(lines 116-138): the defaults, overlaid by the file config, overlaid by the
explicitly provided CLI arguments. -/
def merge_config (defaults file_config cli_args : List (String × JVal)) :
    List (String × JVal) :=
  deep_merge (deep_merge defaults file_config) cli_args

theorem lookupKey_setKey_self (m : List (String × JVal)) (k : String) (v : JVal) :
    lookupKey (setKey m k v) k = some v := by
  induction m with
  | nil => simp [setKey, lookupKey]
  | cons kv rest ih =>
    obtain ⟨k1, w⟩ := kv
    by_cases h : k1 = k
    · simp [setKey, lookupKey, h]
    · simp [setKey, lookupKey, h, ih]

theorem lookupKey_setKey_ne (m : List (String × JVal)) (k key : String) (v : JVal)
    (hne : k ≠ key) : lookupKey (setKey m k v) key = lookupKey m key := by
  induction m with
  | nil => simp [setKey, lookupKey, hne]
  | cons kv rest ih =>
    obtain ⟨k1, w⟩ := kv
    by_cases h : k1 = k
    · subst h
      simp [setKey, lookupKey, hne]
    · simp [setKey, lookupKey, h, ih]

theorem lookupKey_eq_none (m : List (String × JVal)) (key : String)
    (h : key ∉ m.map Prod.fst) : lookupKey m key = none := by
  induction m with
  | nil => rfl
  | cons kv rest ih =>
    obtain ⟨k, v⟩ := kv
    simp only [List.map_cons, List.mem_cons, not_or] at h
    rw [lookupKey, if_neg (fun he => h.1 he.symm)]
    exact ih h.2

/-- Merging one overlay binding rewrites exactly that key of base. -/
theorem deep_merge_cons_ex (base : List (String × JVal)) (k : String) (v : JVal)
    (rest : List (String × JVal)) :
    ∃ w, deep_merge base ((k, v) :: rest) = deep_merge (setKey base k w) rest := by
  cases v with
  | atom a => exact ⟨JVal.atom a, by rw [deep_merge]⟩
  | dict o =>
    cases hl : lookupKey base k with
    | none =>
      refine ⟨JVal.dict o, ?_⟩
      rw [deep_merge, hl]
    | some bv =>
      cases bv with
      | atom a =>
        refine ⟨JVal.dict o, ?_⟩
        rw [deep_merge, hl]
      | dict b =>
        refine ⟨JVal.dict (deep_merge b o), ?_⟩
        rw [deep_merge, hl]

/-- A key the overlay does not bind keeps its base binding. -/
theorem lookupKey_deep_merge_absent :
    ∀ (overlay base : List (String × JVal)) (key : String),
      lookupKey overlay key = none →
      lookupKey (deep_merge base overlay) key = lookupKey base key := by
  intro overlay
  induction overlay with
  | nil =>
    intro base key _
    rw [deep_merge]
  | cons kv rest ih =>
    obtain ⟨k, v⟩ := kv
    intro base key h
    have hk : ¬ (k = key) := by
      intro he
      rw [lookupKey, if_pos he] at h
      exact absurd h (by simp)
    have hrest : lookupKey rest key = none := by
      rw [lookupKey, if_neg hk] at h
      exact h
    obtain ⟨w, hw⟩ := deep_merge_cons_ex base k v rest
    rw [hw, ih _ _ hrest, lookupKey_setKey_ne _ _ _ _ hk]

/-- A key the overlay binds to a non-dict value ends at the overlay's
value. -/
theorem lookupKey_deep_merge_atom :
    ∀ (overlay base : List (String × JVal)) (key : String) (a : ℕ),
      (overlay.map Prod.fst).Nodup →
      lookupKey overlay key = some (JVal.atom a) →
      lookupKey (deep_merge base overlay) key = some (JVal.atom a) := by
  intro overlay
  induction overlay with
  | nil =>
    intro base key a _ h
    simp [lookupKey] at h
  | cons kv rest ih =>
    obtain ⟨k, v⟩ := kv
    intro base key a hnd h
    simp only [List.map_cons, List.nodup_cons] at hnd
    by_cases hk : k = key
    · rw [lookupKey, if_pos hk] at h
      injection h with hv
      subst hv
      subst hk
      have hrest : lookupKey rest k = none := lookupKey_eq_none rest k hnd.1
      rw [deep_merge, lookupKey_deep_merge_absent rest _ k hrest,
        lookupKey_setKey_self]
    · rw [lookupKey, if_neg hk] at h
      obtain ⟨w, hw⟩ := deep_merge_cons_ex base k v rest
      rw [hw]
      exact ih _ _ _ hnd.2 h

/-- A key both sides bind to dicts ends at the recursive merge of the two
dicts. -/
theorem lookupKey_deep_merge_dicts :
    ∀ (overlay base : List (String × JVal)) (key : String)
      (o b : List (String × JVal)),
      (overlay.map Prod.fst).Nodup →
      lookupKey overlay key = some (JVal.dict o) →
      lookupKey base key = some (JVal.dict b) →
      lookupKey (deep_merge base overlay) key = some (JVal.dict (deep_merge b o)) := by
  intro overlay
  induction overlay with
  | nil =>
    intro base key o b _ h _
    simp [lookupKey] at h
  | cons kv rest ih =>
    obtain ⟨k, v⟩ := kv
    intro base key o b hnd h hbase
    simp only [List.map_cons, List.nodup_cons] at hnd
    by_cases hk : k = key
    · rw [lookupKey, if_pos hk] at h
      injection h with hv
      subst hv
      subst hk
      have hrest : lookupKey rest k = none := lookupKey_eq_none rest k hnd.1
      rw [deep_merge, hbase, lookupKey_deep_merge_absent rest _ k hrest,
        lookupKey_setKey_self]
    · rw [lookupKey, if_neg hk] at h
      obtain ⟨w, hw⟩ := deep_merge_cons_ex base k v rest
      rw [hw]
      refine ih _ _ _ _ hnd.2 h ?_
      rw [lookupKey_setKey_ne _ _ _ _ hk]
      exact hbase

/-- C10: `deep_merge` keeps keys bound only in base at base's value,
replaces keys the overlay binds to non-dict values with the overlay's value,
merges keys both sides bind to dicts recursively, and is the identity for an
empty overlay; `merge_config` is the two-stage deep merge defaults → file
config → CLI arguments, which therefore gives CLI atoms first precedence,
file-config atoms second, and defaults last. -/
theorem C10_deep_merge_precedence :
    (∀ (base overlay : List (String × JVal)) (key : String),
      lookupKey overlay key = none →
      lookupKey (deep_merge base overlay) key = lookupKey base key) ∧
    (∀ (base overlay : List (String × JVal)) (key : String) (a : ℕ),
      (overlay.map Prod.fst).Nodup →
      lookupKey overlay key = some (JVal.atom a) →
      lookupKey (deep_merge base overlay) key = some (JVal.atom a)) ∧
    (∀ (base overlay : List (String × JVal)) (key : String)
        (o b : List (String × JVal)),
      (overlay.map Prod.fst).Nodup →
      lookupKey overlay key = some (JVal.dict o) →
      lookupKey base key = some (JVal.dict b) →
      lookupKey (deep_merge base overlay) key = some (JVal.dict (deep_merge b o))) ∧
    (∀ base : List (String × JVal), deep_merge base [] = base) ∧
    (∀ d f c : List (String × JVal),
      merge_config d f c = deep_merge (deep_merge d f) c) ∧
    (∀ (d f c : List (String × JVal)) (key : String) (a : ℕ),
      (c.map Prod.fst).Nodup →
      lookupKey c key = some (JVal.atom a) →
      lookupKey (merge_config d f c) key = some (JVal.atom a)) ∧
    (∀ (d f c : List (String × JVal)) (key : String) (a : ℕ),
      (f.map Prod.fst).Nodup →
      lookupKey c key = none →
      lookupKey f key = some (JVal.atom a) →
      lookupKey (merge_config d f c) key = some (JVal.atom a)) ∧
    (∀ (d f c : List (String × JVal)) (key : String),
      lookupKey c key = none → lookupKey f key = none →
      lookupKey (merge_config d f c) key = lookupKey d key) := by
  refine ⟨fun base overlay key h => lookupKey_deep_merge_absent overlay base key h,
    fun base overlay key a hnd h => lookupKey_deep_merge_atom overlay base key a hnd h,
    fun base overlay key o b hnd h hb =>
      lookupKey_deep_merge_dicts overlay base key o b hnd h hb,
    fun base => by rw [deep_merge],
    fun d f c => rfl, ?_, ?_, ?_⟩
  · intro d f c key a hnd h
    exact lookupKey_deep_merge_atom c _ key a hnd h
  · intro d f c key a hnd hc hf
    rw [merge_config, lookupKey_deep_merge_absent c _ key hc]
    exact lookupKey_deep_merge_atom f _ key a hnd hf
  · intro d f c key hc hf
    rw [merge_config, lookupKey_deep_merge_absent c _ key hc,
      lookupKey_deep_merge_absent f _ key hf]

/-- Demonstration base configuration dict. -/
def baseDemo : List (String × JVal) :=
  [("language", JVal.atom 0),
   ("vad", JVal.dict [("enabled", JVal.atom 1), ("threshold", JVal.atom 2)])]

/-- Demonstration overlay dict: a nested dict update plus a new scalar. -/
def overlayDemo : List (String × JVal) :=
  [("vad", JVal.dict [("enabled", JVal.atom 3)]), ("model", JVal.atom 4)]

/-- Witness for C10 on concrete dicts. -/
theorem C10_deep_merge_precedence_witness :
    lookupKey (deep_merge baseDemo overlayDemo) "language" =
      lookupKey baseDemo "language" ∧
    lookupKey (deep_merge baseDemo overlayDemo) "model" = some (JVal.atom 4) ∧
    lookupKey (deep_merge baseDemo overlayDemo) "vad" =
      some (JVal.dict (deep_merge
        [("enabled", JVal.atom 1), ("threshold", JVal.atom 2)]
        [("enabled", JVal.atom 3)])) ∧
    deep_merge baseDemo [] = baseDemo :=
  ⟨C10_deep_merge_precedence.1 baseDemo overlayDemo "language" rfl,
   C10_deep_merge_precedence.2.1 baseDemo overlayDemo "model" 4 (by decide) rfl,
   C10_deep_merge_precedence.2.2.1 baseDemo overlayDemo "vad"
     [("enabled", JVal.atom 3)]
     [("enabled", JVal.atom 1), ("threshold", JVal.atom 2)] (by decide) rfl rfl,
   C10_deep_merge_precedence.2.2.2.1 baseDemo⟩
